import Mathlib

/-!
Verification of the innowise_laboratory repository.

The development embeds three programs:
* `src/lecture_5/book_api/main.py` — a CRUD book-collection service.
  The database table `books` is modelled as an insertion-ordered list of
  records together with the autoincrement counter for the primary key;
  each FastAPI endpoint becomes a function returning `Except ApiError`.
* `src/lecture_2/summary.py` — the `generate_profile` life-stage function.
* `src/lecture_3/grade.py` — the menu-driven student grade tracker,
  modelled as a step relation on the `students` list.
-/

namespace BookApi

/-- A row of the `books` table (`BookDB` in main.py): integer primary key,
required `title` and `author`, optional `year`. -/
structure Book where
  id : Int
  title : String
  author : String
  year : Option Int
deriving Repr, DecidableEq

/-- The request body of POST and PUT (`BookCreate` in main.py), before
pydantic validation is applied. -/
structure BookCreate where
  title : String
  author : String
  year : Option Int
deriving Repr, DecidableEq

/-- Pydantic validation of `BookCreate`: `title` and `author` have
`min_length=1`, `year` is `None` or satisfies `ge=0, le=2100`. -/
def BookCreate.valid (bc : BookCreate) : Bool :=
  1 ≤ bc.title.length && 1 ≤ bc.author.length &&
    (match bc.year with
     | none => true
     | some y => (0 ≤ y && y ≤ 2100))

/-- The database state: the `books` table in insertion order, together with
the next value of the autoincrement primary key. -/
structure Store where
  books : List Book
  nextId : Int
deriving Repr, DecidableEq

/-- The freshly created database file: empty table, first id is 1. -/
def Store.empty : Store := ⟨[], 1⟩

/-- The error responses a handler can raise: pydantic/query validation
(HTTP 422) and `HTTPException(status_code=404)`. -/
inductive ApiError where
  | validationError
  | notFound
deriving Repr, DecidableEq

/-- `db.query(BookDB).filter(BookDB.id == book_id).first()`. -/
def firstWithId (book_id : Int) (books : List Book) : Option Book :=
  books.find? (fun b => b.id == book_id)

/-- ENDPOINT 1, `create_book`: validate the body, insert a row with the
fresh id, return the created book and the new store. -/
def create_book (book : BookCreate) (s : Store) : Except ApiError (Book × Store) :=
  if book.valid then
    let db_book : Book := ⟨s.nextId, book.title, book.author, book.year⟩
    .ok (db_book, ⟨s.books ++ [db_book], s.nextId + 1⟩)
  else
    .error .validationError

/-- ENDPOINT 2, `read_books`: query-validate `skip` (`ge=0`) and `limit`
(`ge=1, le=100`), then `offset(skip).limit(limit).all()`. -/
def read_books (skip limit : Int) (s : Store) : Except ApiError (List Book) :=
  if 0 ≤ skip && 1 ≤ limit && limit ≤ 100 then
    .ok ((s.books.drop skip.toNat).take limit.toNat)
  else
    .error .validationError

/-- ENDPOINT 3, `read_book`: first row with the id, else 404. -/
def read_book (book_id : Int) (s : Store) : Except ApiError Book :=
  match firstWithId book_id s.books with
  | some book => .ok book
  | none => .error .notFound

/-- The `setattr` loop of `update_book`: replace every field of
`book_update.dict()` (title, author, year — not id). -/
def applyUpdate (book_update : BookCreate) (b : Book) : Book :=
  { b with title := book_update.title, author := book_update.author,
           year := book_update.year }

/-- Replacement of the first row matching the id, leaving the rest alone —
the effect of mutating the ORM object found by `first()` and committing. -/
def updateFirst (book_id : Int) (book_update : BookCreate) :
    List Book → List Book
  | [] => []
  | b :: bs =>
    if b.id == book_id then applyUpdate book_update b :: bs
    else b :: updateFirst book_id book_update bs

/-- ENDPOINT 4, `update_book`: body validation (pydantic runs before the
handler), then find the row, 404 if absent, else overwrite the mutable
fields and return the updated book with the new store. -/
def update_book (book_id : Int) (book_update : BookCreate) (s : Store) :
    Except ApiError (Book × Store) :=
  if book_update.valid then
    match firstWithId book_id s.books with
    | some db_book =>
        .ok (applyUpdate book_update db_book,
             ⟨updateFirst book_id book_update s.books, s.nextId⟩)
    | none => .error .notFound
  else
    .error .validationError

/-- Removal of the first row matching the id (`db.delete(book)`). -/
def deleteFirst (book_id : Int) : List Book → List Book
  | [] => []
  | b :: bs => if b.id == book_id then bs else b :: deleteFirst book_id bs

/-- ENDPOINT 5, `delete_book`: find the row, 404 if absent, else remove it
and return the new store (the HTTP response body is empty, 204). -/
def delete_book (book_id : Int) (s : Store) : Except ApiError Store :=
  match firstWithId book_id s.books with
  | some _ => .ok ⟨deleteFirst book_id s.books, s.nextId⟩
  | none => .error .notFound

/-- `needle` begins the list `hay`. -/
def beginsWith : List Char → List Char → Bool
  | [], _ => true
  | _ :: _, [] => false
  | c :: cs, d :: ds => c == d && beginsWith cs ds

/-- `needle` occurs in `hay` as a contiguous run of characters. -/
def occursIn (needle : List Char) : List Char → Bool
  | [] => needle.isEmpty
  | c :: cs => beginsWith needle (c :: cs) || occursIn needle cs

/-- Character-wise lowercasing of a string (the effect of SQL `lower` /
`String.toLower`, restricted as both are to basic latin letters). -/
def lower (s : String) : List Char :=
  s.data.map Char.toLower

/-- Case-insensitive containment, the semantics of
`column.ilike(f"%{pattern}%")`. -/
def containsCI (hay pattern : String) : Bool :=
  occursIn (lower pattern) (lower hay)

/-- The `if title:` step of `search_books`: the filter is added only when
the parameter is provided and non-empty (`None` and `""` are both falsy). -/
def titleFilter (title : Option String) (q : List Book) : List Book :=
  match title with
  | some t => if t = "" then q else q.filter (fun b => containsCI b.title t)
  | none => q

/-- The `if author:` step of `search_books`. -/
def authorFilter (author : Option String) (q : List Book) : List Book :=
  match author with
  | some a => if a = "" then q else q.filter (fun b => containsCI b.author a)
  | none => q

/-- The `if year is not None:` step of `search_books`. -/
def yearFilter (year : Option Int) (q : List Book) : List Book :=
  match year with
  | some y => q.filter (fun b => b.year == some y)
  | none => q

/-- ENDPOINT 6, `search_books`: query-validate `year` (`ge=0, le=2100`),
then chain the three filters over the whole table and return `.all()` —
there is no offset or limit in this endpoint. -/
def search_books (title author : Option String) (year : Option Int)
    (s : Store) : Except ApiError (List Book) :=
  if (match year with | none => true | some y => (0 ≤ y && y ≤ 2100)) then
    .ok (yearFilter year (authorFilter author (titleFilter title s.books)))
  else
    .error .validationError

/-- The store left behind by a create request: unchanged when the request
fails validation, the updated store when it succeeds. -/
def Store.afterCreate (bc : BookCreate) (s : Store) : Store :=
  match create_book bc s with
  | .ok (_, s2) => s2
  | .error _ => s

/-- A store of 101 records — more than the largest page `read_books` can
return, used to exhibit that search has no result bound. -/
def store101 : Store :=
  ⟨(List.range 101).map (fun n => ⟨(n : Int) + 1, "B", "A", none⟩), 102⟩

/-- One successful mutating request against the store. -/
inductive Step : Store → Store → Prop where
  | create (bc : BookCreate) (b : Book) (s s2 : Store) :
      create_book bc s = .ok (b, s2) → Step s s2
  | update (book_id : Int) (bc : BookCreate) (b : Book) (s s2 : Store) :
      update_book book_id bc s = .ok (b, s2) → Step s s2
  | delete (book_id : Int) (s s2 : Store) :
      delete_book book_id s = .ok s2 → Step s s2

/-- The store states reachable from the fresh database by successful
requests (read-only endpoints do not change the store). -/
inductive Reachable : Store → Prop where
  | empty : Reachable Store.empty
  | step {s s2 : Store} : Reachable s → Step s s2 → Reachable s2

/-- The spec's title criterion: omitted means unconstrained, provided
means case-insensitive substring of the record's title. -/
def titleMatches (title : Option String) (b : Book) : Bool :=
  match title with | none => true | some t => containsCI b.title t

/-- The spec's author criterion. -/
def authorMatches (author : Option String) (b : Book) : Bool :=
  match author with | none => true | some a => containsCI b.author a

/-- The spec's year criterion: exact equality when provided. -/
def yearMatches (year : Option Int) (b : Book) : Bool :=
  match year with | none => true | some y => b.year == some y

/-- The spec's matching relation for search: every provided criterion
matches, criteria ANDed. -/
def matchesCriteria (title author : Option String) (year : Option Int)
    (b : Book) : Bool :=
  titleMatches title b && authorMatches author b && yearMatches year b

end BookApi

namespace Summary

/-- `generate_profile` from src/lecture_2/summary.py: the chain of
range tests, falling through to `None` (here `none`) when no branch
applies. -/
def generate_profile (age : Int) : Option String :=
  if 0 ≤ age ∧ age ≤ 12 then some "Child"
  else if 13 ≤ age ∧ age ≤ 19 then some "Teenager"
  else if age ≥ 20 then some "Adult"
  else none

end Summary

namespace GradeTracker

/-- An entry of the `students` list in src/lecture_3/grade.py:
`{"name": ..., "grades": [...]}`. Grades are numbers read from input;
they are modelled as rationals. -/
structure Student where
  name : String
  grades : List Rat
deriving DecidableEq

/-- Menu choice 1: reject the name if `any(s["name"] == new_name)`,
else append `{"name": new_name, "grades": []}`. -/
def addStudent (new_name : String) (students : List Student) : List Student :=
  if students.any (fun s => s.name == new_name) then students
  else students ++ [⟨new_name, []⟩]

/-- One iteration of menu choice 2's inner loop: append one in-range grade
to the first student with the given name; out-of-range grades and unknown
names leave the list unchanged. -/
def addGrade (name : String) (grade : Rat) : List Student → List Student
  | [] => []
  | s :: ss =>
    if s.name == name then
      (if 0 ≤ grade ∧ grade ≤ 100 then
        { s with grades := s.grades ++ [grade] } :: ss
      else s :: ss)
    else s :: addGrade name grade ss

/-- One menu interaction that can change the `students` list
(choices 3–5 only read it). -/
inductive GStep : List Student → List Student → Prop where
  | add (name : String) (ss : List Student) : GStep ss (addStudent name ss)
  | grade (name : String) (g : Rat) (ss : List Student) :
      GStep ss (addGrade name g ss)

/-- The states of the `students` list reachable from the initial `[]`. -/
inductive GReachable : List Student → Prop where
  | nil : GReachable []
  | step {ss ss2 : List Student} : GReachable ss → GStep ss ss2 → GReachable ss2

end GradeTracker

namespace BookApi

/-- Every id in the table is below the autoincrement counter. -/
def Store.IdsFresh (s : Store) : Prop :=
  ∀ b ∈ s.books, b.id < s.nextId

/-- The ids in the table are pairwise distinct. -/
def Store.IdsNodup (s : Store) : Prop :=
  (s.books.map Book.id).Nodup

theorem IdsFresh_empty : Store.empty.IdsFresh := by
  intro b hb
  simp [Store.empty] at hb

theorem IdsNodup_empty : Store.empty.IdsNodup := by
  simp [Store.IdsNodup, Store.empty]

theorem firstWithId_books_eq_none {s : Store} (hfresh : s.IdsFresh) :
    firstWithId s.nextId s.books = none := by
  rw [firstWithId, List.find?_eq_none]
  intro b hb
  have := hfresh b hb
  simp only [beq_iff_eq]
  omega

theorem firstWithId_append (book_id : Int) (l l' : List Book) :
    firstWithId book_id (l ++ l') =
      ((firstWithId book_id l).or (firstWithId book_id l')) :=
  List.find?_append

end BookApi

/-- C1: for every valid book request and every store whose ids are below the
autoincrement counter, `create_book` succeeds with the fresh id
`s.nextId`, the returned record carries exactly the requested title,
author and year, its id is not among the existing ids, and `read_book` on
that id in the new store returns exactly that record. -/
theorem BookApi.create_then_get (bc : BookApi.BookCreate) (s : BookApi.Store)
    (hv : bc.valid = true) (hfresh : s.IdsFresh) :
    ∃ (b : BookApi.Book) (s2 : BookApi.Store),
      BookApi.create_book bc s = .ok (b, s2) ∧
      b.title = bc.title ∧ b.author = bc.author ∧ b.year = bc.year ∧
      b.id = s.nextId ∧ b.id ∉ s.books.map BookApi.Book.id ∧
      BookApi.read_book b.id s2 = .ok b := by
  refine ⟨⟨s.nextId, bc.title, bc.author, bc.year⟩,
    ⟨s.books ++ [⟨s.nextId, bc.title, bc.author, bc.year⟩], s.nextId + 1⟩,
    ?_, rfl, rfl, rfl, rfl, ?_, ?_⟩
  · simp [create_book, hv]
  · intro hmem
    rcases List.mem_map.mp hmem with ⟨b, hb, hid⟩
    have hid2 : b.id = s.nextId := hid
    have := hfresh b hb
    omega
  · rw [read_book, firstWithId_append, firstWithId_books_eq_none hfresh]
    simp [firstWithId]

/-- Witness for C1: creating "War and Peace" in the empty store yields the
record with id 1, and reading id 1 back returns it. -/
theorem BookApi.create_then_get_witness :
    ∃ (b : BookApi.Book) (s2 : BookApi.Store),
      BookApi.create_book ⟨"War and Peace", "Tolstoy", some 1869⟩ BookApi.Store.empty
        = .ok (b, s2) ∧
      b.title = "War and Peace" ∧ b.author = "Tolstoy" ∧ b.year = some 1869 ∧
      b.id = BookApi.Store.empty.nextId ∧
      b.id ∉ BookApi.Store.empty.books.map BookApi.Book.id ∧
      BookApi.read_book b.id s2 = .ok b :=
  BookApi.create_then_get ⟨"War and Peace", "Tolstoy", some 1869⟩ BookApi.Store.empty
    (by decide) BookApi.IdsFresh_empty

/-- C2: a create request with an empty title, an empty author, or a year
outside [0, 2100] is rejected with the validation error (HTTP 422) and
leaves the store unchanged. -/
theorem BookApi.invalid_create_rejected (bc : BookApi.BookCreate) (s : BookApi.Store)
    (h : bc.title = "" ∨ bc.author = "" ∨
         ∃ y, bc.year = some y ∧ (y < 0 ∨ 2100 < y)) :
    BookApi.create_book bc s = .error .validationError ∧
    BookApi.Store.afterCreate bc s = s := by
  have hv : bc.valid = false := by
    rcases h with h | h | ⟨y, hy, hrange⟩
    · simp [BookCreate.valid, h]
    · simp [BookCreate.valid, h]
    · simp only [BookCreate.valid, hy, Bool.and_eq_false_iff]
      right
      simp only [decide_eq_false_iff_not, Bool.and_eq_false_iff]
      omega
  constructor
  · simp [create_book, hv]
  · simp [Store.afterCreate, create_book, hv]

/-- Witness for C2: creating a book with an empty title in the empty store
fails with the validation error and leaves the store empty. -/
theorem BookApi.invalid_create_rejected_witness :
    BookApi.create_book ⟨"", "Tolstoy", none⟩ BookApi.Store.empty
      = .error .validationError ∧
    BookApi.Store.afterCreate ⟨"", "Tolstoy", none⟩ BookApi.Store.empty
      = BookApi.Store.empty :=
  BookApi.invalid_create_rejected ⟨"", "Tolstoy", none⟩ BookApi.Store.empty
    (Or.inl rfl)

namespace BookApi

theorem firstWithId_nil (i : Int) : firstWithId i [] = none := rfl

theorem firstWithId_cons (i : Int) (b : Book) (bs : List Book) :
    firstWithId i (b :: bs) =
      (if b.id = i then some b else firstWithId i bs) := by
  by_cases hb : b.id = i
  · rw [firstWithId, List.find?_cons_of_pos _ (by simp [hb]), if_pos hb]
  · rw [firstWithId, List.find?_cons_of_neg _ (by simp [hb]), if_neg hb]
    rfl

theorem updateFirst_cons (i : Int) (bc : BookCreate) (b : Book)
    (bs : List Book) :
    updateFirst i bc (b :: bs) =
      (if b.id = i then applyUpdate bc b :: bs
       else b :: updateFirst i bc bs) := by
  by_cases hb : b.id = i <;> simp [updateFirst, hb]

theorem deleteFirst_cons (i : Int) (b : Book) (bs : List Book) :
    deleteFirst i (b :: bs) =
      (if b.id = i then bs else b :: deleteFirst i bs) := by
  by_cases hb : b.id = i <;> simp [deleteFirst, hb]

theorem firstWithId_eq_none (i : Int) (l : List Book) :
    firstWithId i l = none ↔ i ∉ l.map Book.id := by
  induction l with
  | nil => simp [firstWithId_nil]
  | cons b bs ih =>
    rw [firstWithId_cons]
    by_cases hb : b.id = i
    · simp [hb]
    · rw [if_neg hb, ih, List.map_cons, List.mem_cons]
      have hne : ¬ i = b.id := fun h => hb h.symm
      simp [hne]

theorem firstWithId_id_of_eq_some {i : Int} {l : List Book} {b : Book}
    (h : firstWithId i l = some b) : b.id = i := by
  have := List.find?_some h
  simpa using this

theorem firstWithId_isSome_of_mem {i : Int} {l : List Book}
    (h : i ∈ l.map Book.id) : ∃ b, firstWithId i l = some b := by
  rcases ho : firstWithId i l with _ | b
  · exact absurd h ((firstWithId_eq_none i l).mp ho)
  · exact ⟨b, rfl⟩

theorem applyUpdate_id (bc : BookCreate) (b : Book) :
    (applyUpdate bc b).id = b.id := rfl

theorem firstWithId_updateFirst (i : Int) (bc : BookCreate) (l : List Book) :
    firstWithId i (updateFirst i bc l) =
      (firstWithId i l).map (applyUpdate bc) := by
  induction l with
  | nil => rfl
  | cons b bs ih =>
    rw [updateFirst_cons, firstWithId_cons]
    by_cases hb : b.id = i
    · rw [if_pos hb, if_pos hb, firstWithId_cons,
        if_pos ((applyUpdate_id bc b).trans hb)]
      rfl
    · rw [if_neg hb, if_neg hb, firstWithId_cons, if_neg hb, ih]

theorem mem_updateFirst_iff (i : Int) (bc : BookCreate) (l : List Book)
    (c : Book) (hc : c.id ≠ i) :
    c ∈ updateFirst i bc l ↔ c ∈ l := by
  induction l with
  | nil => rfl
  | cons b bs ih =>
    rw [updateFirst_cons]
    by_cases hb : b.id = i
    · have hcb : c ≠ b := fun h => hc (h ▸ hb)
      have hcb2 : c ≠ applyUpdate bc b := by
        intro h
        apply hc
        rw [h, applyUpdate_id, hb]
      rw [if_pos hb, List.mem_cons, List.mem_cons]
      simp [hcb, hcb2]
    · rw [if_neg hb, List.mem_cons, List.mem_cons, ih]

theorem not_mem_map_id_deleteFirst (i : Int) (l : List Book)
    (hnodup : (l.map Book.id).Nodup) : i ∉ (deleteFirst i l).map Book.id := by
  induction l with
  | nil => simp [deleteFirst]
  | cons b bs ih =>
    rw [List.map_cons, List.nodup_cons] at hnodup
    rw [deleteFirst_cons]
    by_cases hb : b.id = i
    · rw [if_pos hb]
      rw [hb] at hnodup
      exact hnodup.1
    · rw [if_neg hb, List.map_cons, List.mem_cons]
      push_neg
      exact ⟨fun h => hb h.symm, ih hnodup.2⟩

end BookApi

/-- C3: when the id is present and the replacement body is valid,
`update_book` succeeds; the returned record and a subsequent `read_book`
on the same id both give exactly the replacement fields under the
unchanged id, and every record whose id differs is untouched. -/
theorem BookApi.update_then_get (book_id : Int) (bc : BookApi.BookCreate)
    (s : BookApi.Store) (hv : bc.valid = true)
    (hpresent : book_id ∈ s.books.map BookApi.Book.id) :
    ∃ (b : BookApi.Book) (s2 : BookApi.Store),
      BookApi.update_book book_id bc s = .ok (b, s2) ∧
      b.id = book_id ∧ b.title = bc.title ∧ b.author = bc.author ∧
      b.year = bc.year ∧
      BookApi.read_book book_id s2 = .ok b ∧
      (∀ c : BookApi.Book, c.id ≠ book_id → (c ∈ s2.books ↔ c ∈ s.books)) := by
  rcases firstWithId_isSome_of_mem hpresent with ⟨db_book, hfind⟩
  refine ⟨applyUpdate bc db_book,
    ⟨updateFirst book_id bc s.books, s.nextId⟩, ?_,
    (applyUpdate_id bc db_book).trans (firstWithId_id_of_eq_some hfind),
    rfl, rfl, rfl, ?_, ?_⟩
  · simp [update_book, hv, hfind]
  · rw [read_book, firstWithId_updateFirst, hfind]
    rfl
  · intro c hc
    exact mem_updateFirst_iff book_id bc s.books c hc

/-- Witness for C3: replacing the only record of a one-record store
succeeds, reading it back gives the replacement under id 1, and the
membership frame holds. -/
theorem BookApi.update_then_get_witness :
    ∃ (b : BookApi.Book) (s2 : BookApi.Store),
      BookApi.update_book 1 ⟨"New", "Author", some 2000⟩
        ⟨[⟨1, "Old", "Writer", none⟩], 2⟩ = .ok (b, s2) ∧
      b.id = 1 ∧ b.title = "New" ∧ b.author = "Author" ∧
      b.year = some 2000 ∧
      BookApi.read_book 1 s2 = .ok b ∧
      (∀ c : BookApi.Book, c.id ≠ 1 →
        (c ∈ s2.books ↔ c ∈ ([⟨1, "Old", "Writer", none⟩] : List BookApi.Book))) :=
  BookApi.update_then_get 1 ⟨"New", "Author", some 2000⟩
    ⟨[⟨1, "Old", "Writer", none⟩], 2⟩ (by decide) (by decide)

/-- C4: `read_book`, `update_book` (with a valid body) and `delete_book`
answer 404 exactly when the id is absent from the table, and — when the
ids are pairwise distinct — deleting a present id makes a subsequent
`read_book` of that id answer 404. -/
theorem BookApi.notFound_iff_absent (book_id : Int) (s : BookApi.Store)
    (bc : BookApi.BookCreate) (hv : bc.valid = true)
    (hnodup : s.IdsNodup) :
    (BookApi.read_book book_id s = .error .notFound ↔
      book_id ∉ s.books.map BookApi.Book.id) ∧
    (BookApi.update_book book_id bc s = .error .notFound ↔
      book_id ∉ s.books.map BookApi.Book.id) ∧
    (BookApi.delete_book book_id s = .error .notFound ↔
      book_id ∉ s.books.map BookApi.Book.id) ∧
    (∀ s2, BookApi.delete_book book_id s = .ok s2 →
      BookApi.read_book book_id s2 = .error .notFound) := by
  refine ⟨?_, ?_, ?_, ?_⟩
  · rw [← firstWithId_eq_none]
    rcases h : firstWithId book_id s.books with _ | b <;> simp [read_book, h]
  · rw [← firstWithId_eq_none]
    rcases h : firstWithId book_id s.books with _ | b <;>
      simp [update_book, hv, h]
  · rw [← firstWithId_eq_none]
    rcases h : firstWithId book_id s.books with _ | b <;> simp [delete_book, h]
  · intro s2 h2
    rcases h : firstWithId book_id s.books with _ | b <;>
      rw [delete_book, h] at h2
    · exact absurd h2 (by simp)
    · have hs2 : s2 = ⟨deleteFirst book_id s.books, s.nextId⟩ := by
        simpa using h2.symm
      subst hs2
      have habs := not_mem_map_id_deleteFirst book_id s.books hnodup
      rw [read_book, (firstWithId_eq_none book_id _).mpr habs]

/-- Witness for C4: on a one-record store with id 1, reading, updating and
deleting id 2 all answer 404 while id 1 is present, and deleting id 1 then
reading id 1 answers 404. -/
theorem BookApi.notFound_iff_absent_witness :
    ((BookApi.read_book 2 ⟨[⟨1, "T", "A", none⟩], 2⟩ = .error .notFound ↔
       (2 : Int) ∉ ([⟨1, "T", "A", none⟩] : List BookApi.Book).map BookApi.Book.id) ∧
     (BookApi.update_book 2 ⟨"N", "B", none⟩ ⟨[⟨1, "T", "A", none⟩], 2⟩
        = .error .notFound ↔
       (2 : Int) ∉ ([⟨1, "T", "A", none⟩] : List BookApi.Book).map BookApi.Book.id) ∧
     (BookApi.delete_book 2 ⟨[⟨1, "T", "A", none⟩], 2⟩ = .error .notFound ↔
       (2 : Int) ∉ ([⟨1, "T", "A", none⟩] : List BookApi.Book).map BookApi.Book.id) ∧
     (∀ s2, BookApi.delete_book 2 ⟨[⟨1, "T", "A", none⟩], 2⟩ = .ok s2 →
       BookApi.read_book 2 s2 = .error .notFound)) ∧
    (∀ s2, BookApi.delete_book 1 ⟨[⟨1, "T", "A", none⟩], 2⟩ = .ok s2 →
      BookApi.read_book 1 s2 = .error .notFound) :=
  ⟨BookApi.notFound_iff_absent 2 ⟨[⟨1, "T", "A", none⟩], 2⟩ ⟨"N", "B", none⟩
     (by decide) (by simp [BookApi.Store.IdsNodup]),
   (BookApi.notFound_iff_absent 1 ⟨[⟨1, "T", "A", none⟩], 2⟩ ⟨"N", "B", none⟩
     (by decide) (by simp [BookApi.Store.IdsNodup])).2.2.2⟩

/-- C9: `generate_profile` maps every non-negative age to exactly one stage
— "Child" on [0,12], "Teenager" on [13,19], "Adult" from 20 on — and every
negative age to no stage at all. -/
theorem Summary.generate_profile_stages (age : Int) :
    Summary.generate_profile age =
      (if age < 0 then none
       else if age ≤ 12 then some "Child"
       else if age ≤ 19 then some "Teenager"
       else some "Adult") := by
  simp only [Summary.generate_profile]
  split_ifs <;> first | rfl | omega

namespace BookApi

theorem occursIn_nil (hay : List Char) : occursIn [] hay = true := by
  cases hay <;> simp [occursIn, beginsWith, List.isEmpty]

theorem containsCI_empty (hay : String) : containsCI hay "" = true := by
  rw [containsCI, show lower "" = [] from rfl]
  exact occursIn_nil _

theorem titleFilter_eq (title : Option String) (l : List Book) :
    titleFilter title l = l.filter (titleMatches title) := by
  match title with
  | none => exact (List.filter_eq_self.mpr (fun a _ => rfl)).symm
  | some t =>
    by_cases ht : t = ""
    · subst ht
      simp only [titleFilter, if_pos rfl]
      exact (List.filter_eq_self.mpr (fun a _ => containsCI_empty _)).symm
    · simp only [titleFilter, if_neg ht]
      rfl

theorem authorFilter_eq (author : Option String) (l : List Book) :
    authorFilter author l = l.filter (authorMatches author) := by
  match author with
  | none => exact (List.filter_eq_self.mpr (fun a _ => rfl)).symm
  | some a =>
    by_cases ha : a = ""
    · subst ha
      simp only [authorFilter, if_pos rfl]
      exact (List.filter_eq_self.mpr (fun x _ => containsCI_empty _)).symm
    · simp only [authorFilter, if_neg ha]
      rfl

theorem yearFilter_eq (year : Option Int) (l : List Book) :
    yearFilter year l = l.filter (yearMatches year) := by
  match year with
  | none => exact (List.filter_eq_self.mpr (fun a _ => rfl)).symm
  | some y => rfl

theorem bool_and_shuffle : ∀ x y z : Bool, (z && y && x) = (x && y && z) := by
  decide

theorem filtersChain_eq (title author : Option String) (year : Option Int)
    (l : List Book) :
    yearFilter year (authorFilter author (titleFilter title l)) =
      l.filter (matchesCriteria title author year) := by
  rw [titleFilter_eq, authorFilter_eq, yearFilter_eq,
    List.filter_filter, List.filter_filter]
  refine List.filter_congr ?_
  intro b _
  rw [matchesCriteria]
  exact bool_and_shuffle _ _ _

/-- The spec-side reading of a successful search: a single filter by the
conjunction of the provided criteria. -/
theorem search_books_eq_filter (title author : Option String)
    (year : Option Int) (s : Store)
    (hy : year = none ∨ ∃ y, year = some y ∧ 0 ≤ y ∧ y ≤ 2100) :
    search_books title author year s =
      .ok (s.books.filter (matchesCriteria title author year)) := by
  rcases hy with h | ⟨y, h, h1, h2⟩
  · subst h
    simp only [search_books, if_pos rfl]
    exact congrArg Except.ok (filtersChain_eq title author none s.books)
  · subst h
    have hcond : (decide (0 ≤ y) && decide (y ≤ 2100)) = true := by
      simp [h1, h2]
    simp only [search_books, hcond, if_pos rfl]
    exact congrArg Except.ok (filtersChain_eq title author (some y) s.books)

end BookApi

/-- C5: for valid criteria, the records returned by `search_books` are
exactly those for which every provided criterion matches — title and
author case-insensitive substring, year by equality, ANDed, with omitted
criteria unconstrained — and no other records. -/
theorem BookApi.search_exact (title author : Option String)
    (year : Option Int) (s : BookApi.Store) (r : List BookApi.Book)
    (hy : year = none ∨ ∃ y, year = some y ∧ 0 ≤ y ∧ y ≤ 2100)
    (hr : BookApi.search_books title author year s = .ok r) :
    r = s.books.filter (BookApi.matchesCriteria title author year) ∧
    (∀ b : BookApi.Book,
      b ∈ r ↔ b ∈ s.books ∧
        BookApi.matchesCriteria title author year b = true) := by
  have h2 := hr.symm.trans (search_books_eq_filter title author year s hy)
  have hre : r = s.books.filter (matchesCriteria title author year) :=
    Except.ok.inj h2
  subst hre
  exact ⟨rfl, fun b => List.mem_filter⟩

/-- Witness for C5: searching title "war" in a two-record store returns
exactly the record whose title contains "war" case-insensitively. -/
theorem BookApi.search_exact_witness :
    ([⟨1, "War and Peace", "Tolstoy", some 1869⟩] : List BookApi.Book) =
      ([⟨1, "War and Peace", "Tolstoy", some 1869⟩,
        ⟨2, "Hamlet", "Shakespeare", none⟩] : List BookApi.Book).filter
        (BookApi.matchesCriteria (some "war") none none) ∧
    (∀ b : BookApi.Book,
      b ∈ ([⟨1, "War and Peace", "Tolstoy", some 1869⟩] : List BookApi.Book) ↔
        b ∈ ([⟨1, "War and Peace", "Tolstoy", some 1869⟩,
              ⟨2, "Hamlet", "Shakespeare", none⟩] : List BookApi.Book) ∧
          BookApi.matchesCriteria (some "war") none none b = true) :=
  BookApi.search_exact (some "war") none none
    ⟨[⟨1, "War and Peace", "Tolstoy", some 1869⟩,
      ⟨2, "Hamlet", "Shakespeare", none⟩], 3⟩
    [⟨1, "War and Peace", "Tolstoy", some 1869⟩]
    (Or.inl rfl) rfl

/-- C8: unlike the listing endpoint, `search_books` applies no pagination:
with no criteria it returns the whole table whatever its size, and in
general every matching record is in the result, whose length is the full
count of matching records. -/
theorem BookApi.search_unpaginated (s : BookApi.Store) :
    BookApi.search_books none none none s = .ok s.books ∧
    (∀ (title author : Option String) (year : Option Int)
       (r : List BookApi.Book),
      BookApi.search_books title author year s = .ok r →
      (∀ b ∈ s.books,
        BookApi.matchesCriteria title author year b = true → b ∈ r) ∧
      r.length =
        (s.books.filter (BookApi.matchesCriteria title author year)).length) := by
  constructor
  · rfl
  · intro title author year r hr
    have hy : year = none ∨ ∃ y, year = some y ∧ 0 ≤ y ∧ y ≤ 2100 := by
      rcases year with _ | y
      · exact Or.inl rfl
      · by_cases h1 : 0 ≤ y ∧ y ≤ 2100
        · exact Or.inr ⟨y, rfl, h1.1, h1.2⟩
        · exfalso
          have hcond : (decide (0 ≤ y) && decide (y ≤ 2100)) = false := by
            rcases not_and_or.mp h1 with h | h <;> simp [h]
          simp only [search_books, hcond] at hr
          simp at hr
    have he := search_books_eq_filter title author year s hy
    have hre : r = s.books.filter (matchesCriteria title author year) :=
      Except.ok.inj (hr.symm.trans he)
    subst hre
    exact ⟨fun b hb hm => List.mem_filter.mpr ⟨hb, hm⟩, rfl⟩

/-- Witness for C8: searching with no criteria on a 101-record store
returns all 101 records — beyond the 100-record cap of the listing
endpoint — and with a title criterion every matching record appears. -/
theorem BookApi.search_unpaginated_witness :
    (BookApi.search_books none none none BookApi.store101 =
      .ok BookApi.store101.books) ∧
    BookApi.store101.books.length = 101 ∧
    (∀ b ∈ BookApi.store101.books,
      BookApi.matchesCriteria (some "b") none none b = true →
        b ∈ BookApi.store101.books) := by
  refine ⟨(BookApi.search_unpaginated BookApi.store101).1, by rfl, ?_⟩
  exact ((BookApi.search_unpaginated BookApi.store101).2 (some "b") none none
    BookApi.store101.books (by rfl)).1

/-- C6: with `skip ≥ 0` and `limit ∈ [1, 100]`, `read_books` succeeds and
returns the slice of the insertion-ordered table of length
`min limit (length - skip)` whose i-th element is the (skip+i)-th record;
in particular on a three-record store `read_books 0 1` returns exactly the
first-inserted record. -/
theorem BookApi.read_books_paginated (skip limit : Int) (s : BookApi.Store)
    (h0 : 0 ≤ skip) (h1 : 1 ≤ limit) (h2 : limit ≤ 100) :
    ∃ r : List BookApi.Book,
      BookApi.read_books skip limit s = .ok r ∧
      r.length = min limit.toNat (s.books.length - skip.toNat) ∧
      (∀ i : Nat, i < limit.toNat → r[i]? = s.books[skip.toNat + i]?) ∧
      (∀ (b1 b2 b3 : BookApi.Book) (n : Int),
        BookApi.read_books 0 1 ⟨[b1, b2, b3], n⟩ = .ok [b1]) := by
  refine ⟨(s.books.drop skip.toNat).take limit.toNat, ?_, ?_, ?_, ?_⟩
  · simp [read_books, h0, h1, h2]
  · simp [List.length_take, List.length_drop]
  · intro i hi
    rw [List.getElem?_take_of_lt hi, List.getElem?_drop]
  · intro b1 b2 b3 n
    rfl

/-- Witness for C6: listing the first page of size 1 of a concrete
three-record store returns exactly the first-inserted record. -/
theorem BookApi.read_books_paginated_witness :
    ∃ r : List BookApi.Book,
      BookApi.read_books 0 1
        ⟨[⟨1, "T1", "A1", none⟩, ⟨2, "T2", "A2", none⟩,
          ⟨3, "T3", "A3", none⟩], 4⟩ = .ok r ∧
      r.length = min (Int.toNat 1)
        (([⟨1, "T1", "A1", none⟩, ⟨2, "T2", "A2", none⟩,
           ⟨3, "T3", "A3", none⟩] : List BookApi.Book).length - Int.toNat 0) ∧
      (∀ i : Nat, i < Int.toNat 1 →
        r[i]? = ([⟨1, "T1", "A1", none⟩, ⟨2, "T2", "A2", none⟩,
                  ⟨3, "T3", "A3", none⟩] : List BookApi.Book)[Int.toNat 0 + i]?) ∧
      (∀ (b1 b2 b3 : BookApi.Book) (n : Int),
        BookApi.read_books 0 1 ⟨[b1, b2, b3], n⟩ = .ok [b1]) :=
  BookApi.read_books_paginated 0 1
    ⟨[⟨1, "T1", "A1", none⟩, ⟨2, "T2", "A2", none⟩, ⟨3, "T3", "A3", none⟩], 4⟩
    (by decide) (by decide) (by decide)

namespace BookApi

theorem create_book_ok {bc : BookCreate} {s : Store} {b : Book} {s2 : Store}
    (h : create_book bc s = .ok (b, s2)) :
    b = ⟨s.nextId, bc.title, bc.author, bc.year⟩ ∧
    s2 = ⟨s.books ++ [⟨s.nextId, bc.title, bc.author, bc.year⟩],
          s.nextId + 1⟩ := by
  by_cases hv : bc.valid
  · simp only [create_book, hv, if_pos] at h
    have h2 := Except.ok.inj h
    exact ⟨(congrArg Prod.fst h2).symm, (congrArg Prod.snd h2).symm⟩
  · simp [create_book, hv] at h

theorem update_book_ok {i : Int} {bc : BookCreate} {s : Store} {b : Book}
    {s2 : Store} (h : update_book i bc s = .ok (b, s2)) :
    s2 = ⟨updateFirst i bc s.books, s.nextId⟩ := by
  by_cases hv : bc.valid
  · rcases hf : firstWithId i s.books with _ | db
    · simp [update_book, hv, hf] at h
    · simp only [update_book, hv, if_pos, hf] at h
      exact (congrArg Prod.snd (Except.ok.inj h)).symm
  · simp [update_book, hv] at h

theorem delete_book_ok {i : Int} {s : Store} {s2 : Store}
    (h : delete_book i s = .ok s2) :
    s2 = ⟨deleteFirst i s.books, s.nextId⟩ := by
  rcases hf : firstWithId i s.books with _ | db
  · simp [delete_book, hf] at h
  · simp only [delete_book, hf] at h
    exact (Except.ok.inj h).symm

theorem updateFirst_map_id (i : Int) (bc : BookCreate) (l : List Book) :
    (updateFirst i bc l).map Book.id = l.map Book.id := by
  induction l with
  | nil => rfl
  | cons b bs ih =>
    rw [updateFirst_cons]
    by_cases hb : b.id = i
    · rw [if_pos hb, List.map_cons, List.map_cons, applyUpdate_id]
    · rw [if_neg hb, List.map_cons, List.map_cons, ih]

theorem deleteFirst_sublist (i : Int) (l : List Book) :
    (deleteFirst i l).Sublist l := by
  induction l with
  | nil => exact List.Sublist.refl _
  | cons b bs ih =>
    rw [deleteFirst_cons]
    by_cases hb : b.id = i
    · rw [if_pos hb]
      exact List.sublist_cons_self b bs
    · rw [if_neg hb]
      exact ih.cons₂ b

/-- The inductive invariant: ids below the counter and pairwise distinct. -/
def Store.Inv (s : Store) : Prop := s.IdsFresh ∧ s.IdsNodup

theorem IdsFresh_of_map_id_eq {l l2 : List Book} {n : Int}
    (hmap : l2.map Book.id = l.map Book.id) (h : ∀ b ∈ l, b.id < n) :
    ∀ b ∈ l2, b.id < n := by
  intro b hb
  have hmem : b.id ∈ l.map Book.id := hmap ▸ List.mem_map_of_mem _ hb
  rcases List.mem_map.mp hmem with ⟨c, hc, hce⟩
  exact hce ▸ h c hc

theorem Inv_step {s s2 : Store} (hs : Store.Inv s) (h : Step s s2) :
    Store.Inv s2 := by
  cases h with
  | create bc b s s2 hc =>
    obtain ⟨hb, hs2⟩ := create_book_ok hc
    subst hs2
    constructor
    · intro x hx
      show x.id < s.nextId + 1
      rcases List.mem_append.mp hx with hx | hx
      · have := hs.1 x hx
        omega
      · have hx2 : x = (⟨s.nextId, bc.title, bc.author, bc.year⟩ : Book) := by
          simpa using hx
        subst hx2
        show s.nextId < s.nextId + 1
        omega
    · show ((s.books ++
        [(⟨s.nextId, bc.title, bc.author, bc.year⟩ : Book)]).map
        Book.id).Nodup
      rw [List.map_append]
      show (s.books.map Book.id ++ [s.nextId]).Nodup
      rw [List.nodup_append]
      refine ⟨hs.2, List.nodup_singleton _, ?_⟩
      intro a ha hb2
      rcases List.mem_map.mp ha with ⟨c, hc2, hce⟩
      have hax : a = s.nextId := by simpa using hb2
      have := hs.1 c hc2
      omega
  | update i bc b s s2 hu =>
    have hs2 := update_book_ok hu
    subst hs2
    exact ⟨IdsFresh_of_map_id_eq (updateFirst_map_id i bc s.books) hs.1,
           by
             show ((updateFirst i bc s.books).map Book.id).Nodup
             rw [updateFirst_map_id]
             exact hs.2⟩
  | delete i s s2 hd =>
    have hs2 := delete_book_ok hd
    subst hs2
    refine ⟨?_, ?_⟩
    · intro b hb
      exact hs.1 b ((deleteFirst_sublist i s.books).mem hb)
    · exact hs.2.sublist ((deleteFirst_sublist i s.books).map Book.id)

theorem Inv_reachable {s : Store} (h : Reachable s) : Store.Inv s := by
  induction h with
  | empty => exact ⟨IdsFresh_empty, IdsNodup_empty⟩
  | step hr hstep ih => exact Inv_step ih hstep

end BookApi

/-- C7: in every reachable store the record ids are pairwise distinct, a
successful create returns an id not among the existing ones, and a
successful update leaves the id of every record (in particular the updated
one) unchanged. -/
theorem BookApi.ids_distinct_and_immutable (s : BookApi.Store)
    (hs : BookApi.Reachable s) :
    (s.books.map BookApi.Book.id).Nodup ∧
    (∀ (bc : BookApi.BookCreate) (b : BookApi.Book) (s2 : BookApi.Store),
      BookApi.create_book bc s = .ok (b, s2) →
        b.id ∉ s.books.map BookApi.Book.id) ∧
    (∀ (i : Int) (bc : BookApi.BookCreate) (b : BookApi.Book)
       (s2 : BookApi.Store),
      BookApi.update_book i bc s = .ok (b, s2) →
        s2.books.map BookApi.Book.id = s.books.map BookApi.Book.id) := by
  have hinv := Inv_reachable hs
  refine ⟨hinv.2, ?_, ?_⟩
  · intro bc b s2 hc
    obtain ⟨hb, _⟩ := create_book_ok hc
    subst hb
    intro hmem
    rcases List.mem_map.mp hmem with ⟨c, hc2, hce⟩
    have hce2 : c.id = s.nextId := hce
    have := hinv.1 c hc2
    omega
  · intro i bc b s2 hu
    rw [update_book_ok hu]
    exact updateFirst_map_id i bc s.books

/-- Witness for C7: after creating one book in the empty store the ids are
distinct, a second create gets the fresh id 2, and updating record 1 keeps
the id list [1]. -/
theorem BookApi.ids_distinct_and_immutable_witness :
    (([⟨1, "T", "A", none⟩] : List BookApi.Book).map BookApi.Book.id).Nodup ∧
    ((⟨2, "U", "B", none⟩ : BookApi.Book).id ∉
      ([⟨1, "T", "A", none⟩] : List BookApi.Book).map BookApi.Book.id) ∧
    (([⟨1, "V", "C", none⟩] : List BookApi.Book).map BookApi.Book.id =
      ([⟨1, "T", "A", none⟩] : List BookApi.Book).map BookApi.Book.id) := by
  have hreach : BookApi.Reachable ⟨[⟨1, "T", "A", none⟩], 2⟩ :=
    BookApi.Reachable.step BookApi.Reachable.empty
      (BookApi.Step.create ⟨"T", "A", none⟩ ⟨1, "T", "A", none⟩
        BookApi.Store.empty ⟨[⟨1, "T", "A", none⟩], 2⟩ rfl)
  have h := BookApi.ids_distinct_and_immutable ⟨[⟨1, "T", "A", none⟩], 2⟩ hreach
  refine ⟨h.1, ?_, ?_⟩
  · exact h.2.1 ⟨"U", "B", none⟩ ⟨2, "U", "B", none⟩
      ⟨[⟨1, "T", "A", none⟩, ⟨2, "U", "B", none⟩], 3⟩ rfl
  · exact h.2.2 1 ⟨"V", "C", none⟩
      (BookApi.applyUpdate ⟨"V", "C", none⟩ ⟨1, "T", "A", none⟩)
      ⟨[⟨1, "V", "C", none⟩], 2⟩ rfl

namespace GradeTracker

theorem addGrade_cons (nm : String) (g : Rat) (s : Student)
    (ss : List Student) :
    addGrade nm g (s :: ss) =
      (if s.name = nm then
        (if 0 ≤ g ∧ g ≤ 100 then
          { s with grades := s.grades ++ [g] } :: ss
         else s :: ss)
       else s :: addGrade nm g ss) := by
  by_cases hs : s.name = nm <;> simp [addGrade, hs]

theorem addGrade_map_name (nm : String) (g : Rat) (l : List Student) :
    (addGrade nm g l).map Student.name = l.map Student.name := by
  induction l with
  | nil => rfl
  | cons s ss ih =>
    rw [addGrade_cons]
    by_cases hs : s.name = nm
    · rw [if_pos hs]
      by_cases hg : 0 ≤ g ∧ g ≤ 100
      · rw [if_pos hg]
        rfl
      · rw [if_neg hg]
    · rw [if_neg hs, List.map_cons, List.map_cons, ih]

theorem addStudent_of_dup (nm : String) (l : List Student)
    (h : l.any (fun s => s.name == nm) = true) : addStudent nm l = l := by
  simp [addStudent, h]

theorem addStudent_nodup (nm : String) (l : List Student)
    (h : (l.map Student.name).Nodup) :
    ((addStudent nm l).map Student.name).Nodup := by
  by_cases ha : l.any (fun s => s.name == nm) = true
  · rw [addStudent_of_dup nm l ha]
    exact h
  · rw [addStudent, if_neg (by simp [ha]), List.map_append]
    show ((l.map Student.name) ++ [nm]).Nodup
    rw [List.nodup_append]
    refine ⟨h, List.nodup_singleton _, ?_⟩
    intro a hmem hnm
    have ha2 : a = nm := by simpa using hnm
    subst ha2
    rcases List.mem_map.mp hmem with ⟨c, hc, hce⟩
    exact ha (List.any_eq_true.mpr ⟨c, hc, by simp [hce]⟩)

theorem GReachable_nodup {ss : List Student} (h : GReachable ss) :
    (ss.map Student.name).Nodup := by
  induction h with
  | nil => simp
  | step hr hstep ih =>
    cases hstep with
    | add nm => exact addStudent_nodup nm _ ih
    | grade nm g =>
      rw [addGrade_map_name]
      exact ih

end GradeTracker

/-- C10: adding a student whose name is already present leaves the
`students` list unchanged, and in every reachable state of the list the
student names are pairwise distinct. -/
theorem GradeTracker.names_distinct (ss : List GradeTracker.Student)
    (nm : String)
    (hdup : ss.any (fun s => s.name == nm) = true)
    (hr : GradeTracker.GReachable ss) :
    GradeTracker.addStudent nm ss = ss ∧
    (ss.map GradeTracker.Student.name).Nodup :=
  ⟨GradeTracker.addStudent_of_dup nm ss hdup, GradeTracker.GReachable_nodup hr⟩

/-- Witness for C10: after adding "Ann" to the empty list, adding "Ann"
again changes nothing, and the names are distinct. -/
theorem GradeTracker.names_distinct_witness :
    GradeTracker.addStudent "Ann" [⟨"Ann", []⟩] = [⟨"Ann", []⟩] ∧
    (([⟨"Ann", []⟩] : List GradeTracker.Student).map
      GradeTracker.Student.name).Nodup :=
  GradeTracker.names_distinct [⟨"Ann", []⟩] "Ann" (by decide)
    (GradeTracker.GReachable.step GradeTracker.GReachable.nil
      (GradeTracker.GStep.add "Ann" []))
